import Mathlib

/-!
Verification of the deep-clone protocol of `torch/csrc/api/include/torch/nn/cloneable.h`
(`Cloneable<Derived>::clone` and `Cloneable<Derived>::clone_`).

Shallow embedding:
* A `Module` is a tree node carrying its concrete dynamic type as a numeric `tag`
  (the `Derived` template argument of `Cloneable`), plus the three `OrderedDict`
  fields `parameters_`, `buffers_`, `children_`.  Parameter and buffer tensors
  are represented by storage identifiers (`Nat`); the tensor *data* lives in a
  separate `Store` mapping storage ids to value lists, so that storage sharing
  and `Tensor::copy_` (an element-wise data copy into existing storage) are
  expressible.
* `reset()` is user-supplied virtual code, one implementation per concrete type:
  it is modelled as a function `ResetFn` from the type tag and a fresh-storage
  counter to the registered parameters, buffers and children plus the advanced
  counter.
* `clone` follows the source statement by statement and additionally records an
  event trace (reset invocation, each passed structural check, each tensor data
  copy, each child merge), so that ordering properties of the source's control
  flow are provable.  `AT_CHECK` failures become `CloneErr` values carrying the
  source's message strings; the store and trace at the moment of failure are
  returned as well, since the C++ exception leaves already-performed `copy_`
  writes in place.
-/

namespace TorchNN

/-- Generic association-list lookup, modelling `OrderedDict::find` /
the key-based access used by `operator[]` in the copy loops. -/
def dictFind {κ α : Type} [DecidableEq κ] : List (κ × α) → κ → Option α
  | [], _ => none
  | (k', v) :: rest, k => if k' = k then some v else dictFind rest k

/-- Generic association-list update at a key, leaving the dict unchanged when
the key is absent.  Models in-place assignment through `OrderedDict` access
(`clone_` move-assigns into the child object the dict entry points at). -/
def dictSet {κ α : Type} [DecidableEq κ] : List (κ × α) → κ → α → List (κ × α)
  | [], _, _ => []
  | (k', v') :: rest, k, v => if k' = k then (k', v) :: rest else (k', v') :: dictSet rest k v

/-- Keys of an association list, in order. -/
def keysOf {κ α : Type} (l : List (κ × α)) : List κ := l.map Prod.fst

/-- Module tree: `mk tag parameters_ buffers_ children_`.  `tag` is the concrete
dynamic type `Derived`; `parameters_` and `buffers_` map names to tensor storage
ids; `children_` maps names to child modules. -/
inductive Module : Type where
  | mk : Nat → List (String × Nat) → List (String × Nat) → List (String × Module) → Module

/-- Concrete dynamic type of a module (the `Derived` in `Cloneable<Derived>`). -/
def Module.tag : Module → Nat
  | .mk t _ _ _ => t

/-- Named parameter tensors (storage ids) of a module, as in `parameters_`. -/
def Module.parameters_ : Module → List (String × Nat)
  | .mk _ ps _ _ => ps

/-- Named buffer tensors (storage ids) of a module, as in `buffers_`. -/
def Module.buffers_ : Module → List (String × Nat)
  | .mk _ _ bs _ => bs

/-- Named child modules of a module, as in `children_`. -/
def Module.children_ : Module → List (String × Module)
  | .mk _ _ _ cs => cs

/-- Tensor storage: a map from storage ids to the data held in that storage.
Modelled from the spec: the tensor abstraction (`data()` and
`copy_(source, non_blocking)`, an element-wise data copy with ordering
guarantees) is not part of the source fragment; a write-through store of
id-indexed value lists captures "element-wise copy into existing storage"
and storage aliasing. -/
abbrev Store := List (Nat × List Int)

/-- Data currently held by storage id `s` (empty when the id was never written). -/
def readStore (σ : Store) (s : Nat) : List Int :=
  match dictFind σ s with
  | some v => v
  | none => []

/-- Overwrite the data held by storage id `s`; models `Tensor::copy_`' s effect
on the destination tensor's storage. -/
def writeStore (σ : Store) (s : Nat) (v : List Int) : Store := (s, v) :: σ

/-- Result of one invocation of a concrete type's `reset()` on a module whose
three dicts were cleared: the parameters, buffers and children it registers,
plus the advanced fresh-storage counter (registration allocates tensors). -/
structure ROut : Type where
  parameters_ : List (String × Nat)
  buffers_ : List (String × Nat)
  children_ : List (String × Module)
  ctr : Nat

/-- Modelled from the spec: `reset()` is the abstract re-initialization hook
supplied by each concrete type (`cloneable.h` only declares it).  A `ResetFn`
gives, for each concrete type tag and fresh-storage counter, the registrations
`reset()` performs. -/
abbrev ResetFn := Nat → Nat → ROut

/-- Error values of the two `AT_CHECK` failure kinds in `cloneable.h`, plus the
missing-key failure of `OrderedDict` lookup.  Modelled from the spec: the
`StructuralMismatch` / `TypeMismatch` error kinds carry the source's message
strings; `keyNotFound` models key-based lookup of an absent key (the
`OrderedDict` container itself is outside the source fragment). -/
inductive CloneErr : Type where
  | structuralMismatch : String → CloneErr
  | typeMismatch : String → CloneErr
  | keyNotFound : String → CloneErr
deriving DecidableEq, Repr

/-- Observable events of one `clone()` run, used to state ordering properties
of the source's control flow. -/
inductive Event : Type where
  | resetRun : Nat → Event
  | paramCheckOk : Event
  | bufferCheckOk : Event
  | childCheckOk : Event
  | copyParam : String → Event
  | copyBuffer : String → Event
  | mergeChild : String → Event
deriving DecidableEq, Repr

/-- Message of the parameter-count `AT_CHECK` in `clone()` (source lines 41-44). -/
def parametersMismatchMsg : String :=
  "The cloned module does not have the same number of parameters as the original module after calling reset(). Are you sure you called register_parameter() inside reset() and not the constructor?"

/-- Message of the buffer-count `AT_CHECK` in `clone()` (source lines 51-54). -/
def buffersMismatchMsg : String :=
  "The cloned module does not have the same number of buffers as the original module after calling reset(). Are you sure you called register_buffer() inside reset() and not the constructor?"

/-- Message of the child-count `AT_CHECK` in `clone()` (source lines 61-64). -/
def childrenMismatchMsg : String :=
  "The cloned module does not have the same number of child modules as the original module after calling reset(). Are you sure you called register_module() inside reset() and not the constructor?"

/-- Message of the downcast `AT_CHECK` in `clone_` (source lines 79-80). -/
def typeMismatchMsg : String :=
  "Attempted to clone submodule, but it is of a different type than the submodule it was to be cloned into"

/-- Outcome of `clone` / `clone_`: the result (or the error thrown), together
with the store, the event trace and the counter at the moment of return or
failure. -/
structure CloneOut : Type where
  res : Except CloneErr Module
  store : Store
  trace : List Event
  ctr : Nat

/-- Outcome of the child-merge loop of `clone()`. -/
structure ChildrenOut : Type where
  res : Except CloneErr (List (String × Module))
  store : Store
  trace : List Event
  ctr : Nat

/-- Copy loop of `clone()` (source lines 45-48 for parameters, 55-58 for
buffers): for each `(key, s)` of the original dict `src`, look up `key` in the
fresh copy's dict `dst` and copy the original storage's current data into the
found storage (`copy->parameters_[parameter.key].data().copy_(parameter->data())`).
Returns the error (if a key is absent), the store after the writes performed,
and one event per performed copy. -/
def copyLoop (ev : String → Event) (dst : List (String × Nat)) :
    List (String × Nat) → Store → Option CloneErr × Store × List Event
  | [], σ => (none, σ, [])
  | (k, s) :: rest, σ =>
    match dictFind dst k with
    | none => (some (.keyNotFound k), σ, [])
    | some d =>
      let σ' := writeStore σ d (readStore σ s)
      let out := copyLoop ev dst rest σ'
      (out.1, out.2.1, ev k :: out.2.2)

mutual

/-- Embedding of `Cloneable<Derived>::clone()` (source lines 32-69):
copy-construct a fresh `Derived` from `self` (a value copy here), clear its
three dicts, run `reset()` on it, then perform the three count checks
interleaved with the parameter copy loop, the buffer copy loop and the child
merge loop, exactly in source order. -/
def clone (R : ResetFn) (m : Module) (σ : Store) (ctr : Nat) : CloneOut :=
  match m with
  | .mk tag ps bs cs =>
    -- `auto copy = std::make_shared<Derived>(self);` then
    -- `copy->parameters_.clear(); copy->buffers_.clear(); copy->children_.clear();`
    -- leave a fresh `Derived` with empty dicts; `copy->reset();` re-populates it:
    let r := R tag ctr
    if r.parameters_.length = ps.length then
      match copyLoop Event.copyParam r.parameters_ ps σ with
      | (some e, σ1, tr1) =>
        ⟨.error e, σ1, Event.resetRun tag :: Event.paramCheckOk :: tr1, r.ctr⟩
      | (none, σ1, tr1) =>
        if r.buffers_.length = bs.length then
          match copyLoop Event.copyBuffer r.buffers_ bs σ1 with
          | (some e, σ2, tr2) =>
            ⟨.error e, σ2,
              Event.resetRun tag :: Event.paramCheckOk :: tr1 ++ Event.bufferCheckOk :: tr2, r.ctr⟩
          | (none, σ2, tr2) =>
            if r.children_.length = cs.length then
              let co := cloneChildren R cs r.children_ σ2 r.ctr
              match co.res with
              | .error e =>
                ⟨.error e, co.store,
                  Event.resetRun tag :: Event.paramCheckOk :: tr1 ++
                    Event.bufferCheckOk :: tr2 ++ Event.childCheckOk :: co.trace, co.ctr⟩
              | .ok cs' =>
                ⟨.ok (Module.mk tag r.parameters_ r.buffers_ cs'), co.store,
                  Event.resetRun tag :: Event.paramCheckOk :: tr1 ++
                    Event.bufferCheckOk :: tr2 ++ Event.childCheckOk :: co.trace, co.ctr⟩
            else
              ⟨.error (.structuralMismatch childrenMismatchMsg), σ2,
                Event.resetRun tag :: Event.paramCheckOk :: tr1 ++ Event.bufferCheckOk :: tr2,
                r.ctr⟩
        else
          ⟨.error (.structuralMismatch buffersMismatchMsg), σ1,
            Event.resetRun tag :: Event.paramCheckOk :: tr1, r.ctr⟩
    else
      ⟨.error (.structuralMismatch parametersMismatchMsg), σ, [Event.resetRun tag], r.ctr⟩
termination_by (sizeOf m, 0)
decreasing_by
  all_goals simp_wf
  all_goals first
  | exact Prod.Lex.left _ _ (by omega)
  | exact Prod.Lex.right _ (by omega)

/-- Embedding of the child-merge loop of `clone()` (source lines 65-67):
`for (const auto& child : children_) copy->children_[child.key]->clone_(*child.value);`.
`origCs` is the original's `children_`; `acc` is the fresh copy's `children_`
(as produced by `reset()`), updated in place entry by entry. -/
def cloneChildren (R : ResetFn) (origCs : List (String × Module))
    (acc : List (String × Module)) (σ : Store) (ctr : Nat) : ChildrenOut :=
  match origCs with
  | [] => ⟨.ok acc, σ, [], ctr⟩
  | (k, oc) :: rest =>
    match dictFind acc k with
    | none => ⟨.error (.keyNotFound k), σ, [], ctr⟩
    | some selfChild =>
      let co := clone_ R selfChild oc σ ctr
      match co.res with
      | .error e => ⟨.error e, co.store, Event.mergeChild k :: co.trace, co.ctr⟩
      | .ok newChild =>
        let out := cloneChildren R rest (dictSet acc k newChild) co.store co.ctr
        ⟨out.res, out.store, Event.mergeChild k :: co.trace ++ out.trace, out.ctr⟩
termination_by (sizeOf origCs, 2)
decreasing_by
  all_goals simp_wf
  all_goals first
  | exact Prod.Lex.left _ _ (by omega)
  | exact Prod.Lex.right _ (by omega)

/-- Embedding of `Cloneable<Derived>::clone_(Module& other)` (source lines
72-82): clone `other` polymorphically, checked-downcast the result to `self`'s
concrete type (`dynamic_pointer_cast<Derived>`), and on success move-assign the
clone's entire state into `self`.  On downcast failure `self` is untouched and
the `TypeMismatch` error is thrown. -/
def clone_ (R : ResetFn) (self other : Module) (σ : Store) (ctr : Nat) : CloneOut :=
  let co := clone R other σ ctr
  match co.res with
  | .error _ => co
  | .ok c =>
    if c.tag = self.tag then ⟨.ok c, co.store, co.trace, co.ctr⟩
    else ⟨.error (.typeMismatch typeMismatchMsg), co.store, co.trace, co.ctr⟩
termination_by (sizeOf other, 1)
decreasing_by
  all_goals simp_wf
  all_goals first
  | exact Prod.Lex.left _ _ (by omega)
  | exact Prod.Lex.right _ (by omega)

end

/-- Values of an association list, in order. -/
def valsOf {κ α : Type} (l : List (κ × α)) : List α := l.map Prod.snd

/-- Name/tag pairs of a child dict: the structural signature the child-merge
relies on (the name an entry is registered under, and its concrete type). -/
def tagsOf (l : List (String × Module)) : List (String × Nat) :=
  l.map (fun p => (p.1, p.2.tag))

mutual

/-- Structural ("shape") equality of module trees: same concrete type, same
parameter names, same buffer names, and pairwise same-named, same-shaped
children (the spec's notion of a module's shape). -/
def sameShape : Module → Module → Bool
  | .mk t ps bs cs, .mk t' ps' bs' cs' =>
    t == t' && keysOf ps == keysOf ps' && keysOf bs == keysOf bs' && sameShapeChildren cs cs'

/-- Pairwise shape equality of child dicts. -/
def sameShapeChildren : List (String × Module) → List (String × Module) → Bool
  | [], [] => true
  | (k, c) :: r, (k', c') :: r' => k == k' && sameShape c c' && sameShapeChildren r r'
  | _ :: _, [] => false
  | [], _ :: _ => false

end

mutual

/-- All storage ids reachable from a module tree (its parameters' and buffers'
storages, recursively through children). -/
def Module.sids : Module → List Nat
  | .mk _ ps bs cs => valsOf ps ++ valsOf bs ++ sidsChildren cs

/-- Storage ids reachable from a child dict. -/
def sidsChildren : List (String × Module) → List Nat
  | [] => []
  | (_, c) :: rest => c.sids ++ sidsChildren rest

end

/-- Well-formed module tree: within each of the three dicts, names are unique
(the spec's invariant on the module data model), recursively. -/
inductive WFMod : Module → Prop where
  | intro (tag : Nat) (ps bs : List (String × Nat)) (cs : List (String × Module))
      (hp : (keysOf ps).Nodup) (hb : (keysOf bs).Nodup) (hcs : (keysOf cs).Nodup)
      (hc : ∀ k c, (k, c) ∈ cs → WFMod c) : WFMod (.mk tag ps bs cs)

/-- Correct `reset()` implementation for a module tree (the spec's contract on
`reset`): on a cleared fresh copy of a module of tag `tag`, `reset()`
re-registers exactly the original's parameter names, buffer names, and child
names with the original children's concrete types, and the same holds
recursively for every child of the tree. -/
inductive CorrectReset (R : ResetFn) : Module → Prop where
  | intro (tag : Nat) (ps bs : List (String × Nat)) (cs : List (String × Module))
      (hk : ∀ ctr, keysOf (R tag ctr).parameters_ = keysOf ps
          ∧ keysOf (R tag ctr).buffers_ = keysOf bs
          ∧ tagsOf (R tag ctr).children_ = tagsOf cs)
      (hc : ∀ k c, (k, c) ∈ cs → CorrectReset R c) : CorrectReset R (.mk tag ps bs cs)

/-- Storage ids allocated by one `reset()` invocation for its parameter and
buffer registrations. -/
def routSids (r : ROut) : List Nat := valsOf r.parameters_ ++ valsOf r.buffers_

/-- Fresh allocation discipline of `reset()`: tensors registered by `reset()`
are freshly allocated — their storage ids are pairwise distinct, at least the
incoming counter, and below the advanced counter the invocation returns. -/
def FreshReset (R : ResetFn) : Prop :=
  ∀ tag ctr, ctr ≤ (R tag ctr).ctr
    ∧ (∀ s ∈ routSids (R tag ctr), ctr ≤ s ∧ s < (R tag ctr).ctr)
    ∧ (routSids (R tag ctr)).Nodup

/-- Character-list test: does `s` start with `p`? -/
def startsWithCL : List Char → List Char → Bool
  | _, [] => true
  | [], _ :: _ => false
  | c :: s, p :: ps => c = p && startsWithCL s ps

/-- Character-list test: does `pat` occur contiguously inside the second list? -/
def containsCL (pat : List Char) : List Char → Bool
  | [] => startsWithCL [] pat
  | c :: rest => startsWithCL (c :: rest) pat || containsCL pat rest

/-- Substring test on strings, used to state what an error message mentions. -/
def containsSubstr (s pat : String) : Bool := containsCL pat.toList s.toList

/-- Concrete fixture: a module with no parameters, buffers or children. -/
def emptyModule : Module := .mk 0 [] [] []

/-- Concrete fixture: a `reset()` that registers nothing, for modules of any
tag that own nothing. -/
def resetNone : ResetFn := fun _ ctr => ⟨[], [], [], ctr⟩

/-- Concrete fixture: a `Linear`-like module with parameters `weight`, `bias`. -/
def linearModule : Module := .mk 1 [("weight", 0), ("bias", 1)] [] []

/-- Concrete fixture: a container with one child `inner` of the `Linear` tag. -/
def containerModule : Module := .mk 0 [] [] [("inner", linearModule)]

/-- Concrete fixture: a correct `reset()` for `containerModule` (tag 0
re-registers the child `inner` as a freshly constructed `Linear`) and for
`linearModule` (tag 1 re-registers `weight` and `bias` with fresh storage). -/
def resetGood : ResetFn := fun tag ctr =>
  if tag = 0 then ⟨[], [], [("inner", .mk 1 [("weight", ctr), ("bias", ctr + 1)] [] [])], ctr + 2⟩
  else ⟨[("weight", ctr), ("bias", ctr + 1)], [], [], ctr + 2⟩

/-- Concrete fixture: a module with one parameter `w` and one buffer `b`. -/
def paramBufferModule : Module := .mk 0 [("w", 0)] [("b", 1)] []

/-- Concrete fixture: initial tensor storage for `paramBufferModule` (`w` holds
`[42]` in storage 0, `b` holds `[7]` in storage 1). -/
def initialStore : Store := [(0, [42]), (1, [7])]

/-- Concrete fixture: a buggy `reset()` that re-registers the parameter `w` but
forgets the buffer `b`. -/
def resetDropBuffer : ResetFn := fun _ ctr => ⟨[("w", ctr)], [], [], ctr + 1⟩

/-- Concrete fixture: a correct, fresh-allocating `reset()` for
`paramBufferModule`. -/
def resetWB : ResetFn := fun _ ctr => ⟨[("w", ctr)], [("b", ctr + 1)], [], ctr + 2⟩

/-- Concrete fixture: a module with one child registered under `inner`. -/
def renamedChildModule : Module := .mk 0 [] [] [("inner", .mk 1 [] [] [])]

/-- Concrete fixture: a `reset()` that registers the same number of children as
`renamedChildModule`'s construction but under the name `renamed` instead of
`inner`. -/
def resetRenameChild : ResetFn := fun tag ctr =>
  if tag = 0 then ⟨[], [], [("renamed", .mk 1 [] [] [])], ctr⟩ else ⟨[], [], [], ctr⟩

/-- Concrete fixture: merge target of concrete type 7. -/
def mismatchedChildSelf : Module := .mk 7 [] [] []

/-- Concrete fixture: merge source of concrete type 5. -/
def mismatchedChildOther : Module := .mk 5 [] [] []

/-! ## Association-list and store lemmas -/

theorem keysOf_length {κ α : Type} (l : List (κ × α)) : (keysOf l).length = l.length := by
  simp [keysOf]

theorem mem_keysOf {κ α : Type} {l : List (κ × α)} {k : κ} {v : α} (h : (k, v) ∈ l) :
    k ∈ keysOf l := by
  simp only [keysOf, List.mem_map]
  exact ⟨(k, v), h, rfl⟩

theorem dictFind_mem {κ α : Type} [DecidableEq κ] :
    ∀ {l : List (κ × α)} {k : κ} {v : α}, dictFind l k = some v → (k, v) ∈ l := by
  intro l
  induction l with
  | nil => intro k v h; simp [dictFind] at h
  | cons p rest ih =>
    intro k v h
    obtain ⟨k', v'⟩ := p
    rw [dictFind] at h
    by_cases hk : k' = k
    · rw [if_pos hk] at h
      cases h
      subst hk
      exact List.mem_cons_self _ _
    · rw [if_neg hk] at h
      exact List.mem_cons_of_mem _ (ih h)

theorem dictFind_isSome {κ α : Type} [DecidableEq κ] :
    ∀ {l : List (κ × α)} {k : κ}, k ∈ keysOf l → ∃ v, dictFind l k = some v := by
  intro l
  induction l with
  | nil => intro k h; simp [keysOf] at h
  | cons p rest ih =>
    intro k h
    obtain ⟨k', v'⟩ := p
    rw [dictFind]
    by_cases hk : k' = k
    · exact ⟨v', if_pos hk⟩
    · rw [if_neg hk]
      apply ih
      simp only [keysOf, List.map_cons, List.mem_cons] at h
      rcases h with h | h
      · exact absurd h.symm hk
      · exact h

theorem dictFind_of_mem_nodup {κ α : Type} [DecidableEq κ] :
    ∀ {l : List (κ × α)}, (keysOf l).Nodup → ∀ {k : κ} {v : α}, (k, v) ∈ l →
      dictFind l k = some v := by
  intro l
  induction l with
  | nil => intro _ k v h; simp at h
  | cons p rest ih =>
    intro hnd k v h
    obtain ⟨k', v'⟩ := p
    simp only [keysOf, List.map_cons, List.nodup_cons] at hnd
    rw [List.mem_cons] at h
    rcases h with h | h
    · cases h
      rw [dictFind, if_pos rfl]
    · rw [dictFind]
      have hk : k' ≠ k := by
        intro he
        exact hnd.1 (he ▸ mem_keysOf h)
      rw [if_neg hk]
      exact ih hnd.2 h

theorem valsOf_mem_of_dictFind {κ α : Type} [DecidableEq κ] {l : List (κ × α)} {k : κ} {v : α}
    (h : dictFind l k = some v) : v ∈ valsOf l := by
  simp only [valsOf, List.mem_map]
  exact ⟨(k, v), dictFind_mem h, rfl⟩

theorem dictFind_inj {κ α : Type} [DecidableEq κ] :
    ∀ {l : List (κ × α)}, (valsOf l).Nodup → ∀ {k k' : κ} {v : α},
      dictFind l k = some v → dictFind l k' = some v → k = k' := by
  intro l
  induction l with
  | nil => intro _ k k' v h; simp [dictFind] at h
  | cons p rest ih =>
    intro hnd k k' v h h'
    obtain ⟨k0, v0⟩ := p
    simp only [valsOf, List.map_cons, List.nodup_cons] at hnd
    rw [dictFind] at h h'
    by_cases hk : k0 = k
    · rw [if_pos hk] at h
      cases h
      by_cases hk' : k0 = k'
      · exact hk ▸ hk'.symm ▸ rfl
      · rw [if_neg hk'] at h'
        exact absurd (valsOf_mem_of_dictFind h') hnd.1
    · rw [if_neg hk] at h
      by_cases hk' : k0 = k'
      · rw [if_pos hk'] at h'
        cases h'
        exact absurd (valsOf_mem_of_dictFind h) hnd.1
      · rw [if_neg hk'] at h'
        exact ih hnd.2 h h'

theorem keysOf_dictSet {κ α : Type} [DecidableEq κ] :
    ∀ (l : List (κ × α)) (k : κ) (v : α), keysOf (dictSet l k v) = keysOf l := by
  intro l
  induction l with
  | nil => intro k v; rfl
  | cons p rest ih =>
    intro k v
    obtain ⟨k', v'⟩ := p
    rw [dictSet]
    by_cases hk : k' = k
    · rw [if_pos hk]
      rfl
    · rw [if_neg hk]
      simp only [keysOf, List.map_cons]
      rw [show List.map Prod.fst (dictSet rest k v) = keysOf (dictSet rest k v) from rfl, ih]
      rfl

theorem dictFind_dictSet_self {κ α : Type} [DecidableEq κ] :
    ∀ {l : List (κ × α)} {k : κ}, k ∈ keysOf l → ∀ (v : α),
      dictFind (dictSet l k v) k = some v := by
  intro l
  induction l with
  | nil => intro k h; simp [keysOf] at h
  | cons p rest ih =>
    intro k h v
    obtain ⟨k', v'⟩ := p
    rw [dictSet]
    by_cases hk : k' = k
    · rw [if_pos hk, dictFind, if_pos hk]
    · rw [if_neg hk, dictFind, if_neg hk]
      apply ih _ v
      simp only [keysOf, List.map_cons, List.mem_cons] at h
      rcases h with h | h
      · exact absurd h.symm hk
      · exact h

theorem dictFind_dictSet_ne {κ α : Type} [DecidableEq κ] :
    ∀ {l : List (κ × α)} {k k' : κ} (_ : k' ≠ k) (v : α),
      dictFind (dictSet l k v) k' = dictFind l k' := by
  intro l
  induction l with
  | nil => intro k k' _ v; rfl
  | cons p rest ih =>
    intro k k' h v
    obtain ⟨k0, v0⟩ := p
    rw [dictSet]
    by_cases hk : k0 = k
    · rw [if_pos hk, dictFind, dictFind]
      have : k0 ≠ k' := fun he => h (he ▸ hk)
      rw [if_neg this, if_neg this]
    · rw [if_neg hk, dictFind, dictFind]
      by_cases hk' : k0 = k'
      · rw [if_pos hk', if_pos hk']
      · rw [if_neg hk', if_neg hk']
        exact ih h v

theorem readStore_writeStore_self (σ : Store) (s : Nat) (v : List Int) :
    readStore (writeStore σ s v) s = v := by
  simp [readStore, writeStore, dictFind]

theorem readStore_writeStore_ne (σ : Store) {s s' : Nat} (v : List Int) (h : s' ≠ s) :
    readStore (writeStore σ s' v) s = readStore σ s := by
  simp [readStore, writeStore, dictFind, h]

/-! ## Copy-loop lemmas -/

theorem copyLoop_ok (ev : String → Event) (dst : List (String × Nat)) :
    ∀ (src : List (String × Nat)) (σ : Store),
      (∀ k ∈ keysOf src, k ∈ keysOf dst) →
      (copyLoop ev dst src σ).1 = none ∧ (copyLoop ev dst src σ).2.2 = (keysOf src).map ev := by
  intro src
  induction src with
  | nil => intro σ _; simp [copyLoop, keysOf]
  | cons p rest ih =>
    intro σ hsub
    obtain ⟨k, s⟩ := p
    have hk : k ∈ keysOf dst := hsub k (by simp [keysOf])
    obtain ⟨d, hd⟩ := dictFind_isSome hk
    rw [copyLoop, hd]
    have := ih (σ := writeStore σ d (readStore σ s))
      (fun k' hk' => hsub k' (by simp [keysOf] at hk' ⊢; exact Or.inr hk'))
    simp only [keysOf, List.map_cons]
    exact ⟨this.1, by rw [this.2]; rfl⟩

theorem copyLoop_trace_events {ev : String → Event} {dst : List (String × Nat)} :
    ∀ {src : List (String × Nat)} {σ : Store} {e : Event},
      e ∈ (copyLoop ev dst src σ).2.2 → ∃ k, k ∈ keysOf src ∧ e = ev k := by
  intro src
  induction src with
  | nil => intro σ e h; simp [copyLoop] at h
  | cons p rest ih =>
    intro σ e h
    obtain ⟨k, s⟩ := p
    rw [copyLoop] at h
    cases hd : dictFind dst k with
    | none => rw [hd] at h; simp at h
    | some d =>
      rw [hd] at h
      simp only [List.mem_cons] at h
      rcases h with h | h
      · exact ⟨k, by simp [keysOf], h⟩
      · obtain ⟨k', hk', he⟩ := ih h
        exact ⟨k', by simp [keysOf] at hk' ⊢; exact Or.inr hk', he⟩

theorem copyLoop_frame (ev : String → Event) (dst : List (String × Nat)) :
    ∀ (src : List (String × Nat)) (σ : Store) (s : Nat),
      (∀ k d, k ∈ keysOf src → dictFind dst k = some d → d ≠ s) →
      readStore (copyLoop ev dst src σ).2.1 s = readStore σ s := by
  intro src
  induction src with
  | nil => intro σ s _; rfl
  | cons p rest ih =>
    intro σ s hprot
    obtain ⟨k, s0⟩ := p
    rw [copyLoop]
    cases hd : dictFind dst k with
    | none => rfl
    | some d =>
      have hne : d ≠ s := hprot k d (by simp [keysOf]) hd
      have := ih (σ := writeStore σ d (readStore σ s0)) (s := s)
        (fun k' d' hk' hd' => hprot k' d' (by simp [keysOf] at hk' ⊢; exact Or.inr hk') hd')
      rw [this, readStore_writeStore_ne _ _ hne]

theorem copyLoop_frame_vals (ev : String → Event) (dst src : List (String × Nat)) (σ : Store)
    (s : Nat) (h : s ∉ valsOf dst) :
    readStore (copyLoop ev dst src σ).2.1 s = readStore σ s :=
  copyLoop_frame ev dst src σ s (fun _ d _ hfind he => h (he ▸ valsOf_mem_of_dictFind hfind))

theorem copyLoop_data (ev : String → Event) (dst : List (String × Nat)) :
    ∀ (src : List (String × Nat)) (σ : Store),
      (∀ k ∈ keysOf src, k ∈ keysOf dst) → (keysOf src).Nodup → (valsOf dst).Nodup →
      (∀ s ∈ valsOf src, s ∉ valsOf dst) →
      ∀ {k : String} {s : Nat}, (k, s) ∈ src →
      ∃ d, dictFind dst k = some d ∧
        readStore (copyLoop ev dst src σ).2.1 d = readStore σ s := by
  intro src
  induction src with
  | nil => intro σ _ _ _ _ k s h; simp at h
  | cons p rest ih =>
    intro σ hsub hnd hvals hdisj k s hmem
    obtain ⟨k0, s0⟩ := p
    simp only [keysOf, List.map_cons, List.nodup_cons] at hnd
    have hk0 : k0 ∈ keysOf dst := hsub k0 (by simp [keysOf])
    obtain ⟨d0, hd0⟩ := dictFind_isSome hk0
    rw [copyLoop, hd0]
    rw [List.mem_cons] at hmem
    rcases hmem with hmem | hmem
    · cases hmem
      refine ⟨d0, hd0, ?_⟩
      have hframe : readStore (copyLoop ev dst rest (writeStore σ d0 (readStore σ s))).2.1 d0 =
          readStore (writeStore σ d0 (readStore σ s)) d0 := by
        apply copyLoop_frame
        intro k' d' hk' hd' he
        subst he
        exact hnd.1 (dictFind_inj hvals hd' hd0 ▸ hk')
      rw [hframe, readStore_writeStore_self]
    · have hsub' : ∀ k' ∈ keysOf rest, k' ∈ keysOf dst :=
        fun k' hk' => hsub k' (by simp [keysOf] at hk' ⊢; exact Or.inr hk')
      have hdisj' : ∀ s' ∈ valsOf rest, s' ∉ valsOf dst :=
        fun s' hs' => hdisj s' (by simp [valsOf] at hs' ⊢; exact Or.inr hs')
      obtain ⟨d, hd, hread⟩ :=
        ih (σ := writeStore σ d0 (readStore σ s0)) hsub' hnd.2 hvals hdisj' hmem
      refine ⟨d, hd, ?_⟩
      rw [hread]
      have hs : s ∈ valsOf rest := by
        simp only [valsOf, List.mem_map]
        exact ⟨(k, s), hmem, rfl⟩
      have hsne : d0 ≠ s := fun he =>
        hdisj' s hs (he ▸ valsOf_mem_of_dictFind hd0)
      rw [readStore_writeStore_ne _ _ hsne]

/-! ## Structural induction over module trees -/

theorem Module.strongInd {P : Module → Prop}
    (h : ∀ tag ps bs cs, (∀ k c, (k, c) ∈ cs → P c) → P (.mk tag ps bs cs)) :
    ∀ m, P m := by
  have H : ∀ n m, sizeOf m ≤ n → P m := by
    intro n
    induction n with
    | zero =>
      intro m hm
      obtain ⟨tag, ps, bs, cs⟩ := m
      rw [Module.mk.sizeOf_spec] at hm
      omega
    | succ n ih =>
      intro m hm
      obtain ⟨tag, ps, bs, cs⟩ := m
      apply h
      intro k c hkc
      apply ih
      have h1 : sizeOf (k, c) < sizeOf cs := List.sizeOf_lt_of_mem hkc
      have h2 : sizeOf c < sizeOf (k, c) := by simp [Prod.mk.sizeOf_spec]
      rw [Module.mk.sizeOf_spec] at hm
      omega
  exact fun m => H (sizeOf m) m le_rfl

/-! ## Shape lemmas -/

theorem sameShape_iff {t t' : Nat} {ps ps' bs bs' : List (String × Nat)}
    {cs cs' : List (String × Module)} :
    sameShape (.mk t ps bs cs) (.mk t' ps' bs' cs') = true ↔
      t = t' ∧ keysOf ps = keysOf ps' ∧ keysOf bs = keysOf bs'
        ∧ sameShapeChildren cs cs' = true := by
  rw [sameShape]
  simp [Bool.and_eq_true, and_assoc]

theorem sameShape_tag : ∀ {a b : Module}, sameShape a b = true → a.tag = b.tag := by
  intro a b h
  obtain ⟨t, ps, bs, cs⟩ := a
  obtain ⟨t', ps', bs', cs'⟩ := b
  exact (sameShape_iff.mp h).1

theorem sameShapeChildren_facts : ∀ {cs' cs : List (String × Module)},
    sameShapeChildren cs' cs = true →
    tagsOf cs' = tagsOf cs
      ∧ ∀ k c', (k, c') ∈ cs' → ∃ c, (k, c) ∈ cs ∧ sameShape c' c = true := by
  intro cs'
  induction cs' with
  | nil =>
    intro cs h
    cases cs with
    | nil => exact ⟨rfl, by simp⟩
    | cons q rest' => rw [sameShapeChildren] at h; cases h
  | cons p rest ih =>
    intro cs h
    obtain ⟨k, c'⟩ := p
    cases cs with
    | nil => rw [sameShapeChildren] at h; cases h
    | cons q rest' =>
      obtain ⟨k2, c2⟩ := q
      rw [sameShapeChildren] at h
      simp only [Bool.and_eq_true, beq_iff_eq] at h
      obtain ⟨⟨hk, hs⟩, hrest⟩ := h
      obtain ⟨htags, hmem⟩ := ih hrest
      subst hk
      constructor
      · simp only [tagsOf, List.map_cons]
        rw [show List.map (fun p => (p.1, p.2.tag)) rest = tagsOf rest from rfl,
          show List.map (fun p => (p.1, p.2.tag)) rest' = tagsOf rest' from rfl] at *
        rw [htags, sameShape_tag hs]
      · intro k0 c0 hmem0
        rw [List.mem_cons] at hmem0
        rcases hmem0 with hmem0 | hmem0
        · cases hmem0
          exact ⟨c2, List.mem_cons_self _ _, hs⟩
        · obtain ⟨c, hc, hsc⟩ := hmem k0 c0 hmem0
          exact ⟨c, List.mem_cons_of_mem _ hc, hsc⟩

theorem keysOf_eq_of_tagsOf_eq {cs cs' : List (String × Module)}
    (h : tagsOf cs = tagsOf cs') : keysOf cs = keysOf cs' := by
  have := congrArg (List.map Prod.fst) h
  simpa [tagsOf, keysOf, List.map_map, Function.comp] using this

theorem sameShapeChildren_intro :
    ∀ {A B : List (String × Module)},
      keysOf A = keysOf B → (keysOf B).Nodup →
      (∀ k b, (k, b) ∈ B → ∃ a, dictFind A k = some a ∧ sameShape a b = true) →
      sameShapeChildren A B = true := by
  intro A
  induction A with
  | nil =>
    intro B hkeys _ _
    cases B with
    | nil => rw [sameShapeChildren]
    | cons q rest' => simp [keysOf] at hkeys
  | cons p rest ih =>
    intro B hkeys hnd hfind
    obtain ⟨k, a⟩ := p
    cases B with
    | nil => simp [keysOf] at hkeys
    | cons q rest' =>
      obtain ⟨k2, b⟩ := q
      simp only [keysOf, List.map_cons, List.cons.injEq] at hkeys
      obtain ⟨hk, hkeys'⟩ := hkeys
      subst hk
      simp only [keysOf, List.map_cons, List.nodup_cons] at hnd
      obtain ⟨a0, ha0, hs0⟩ := hfind k b (List.mem_cons_self _ _)
      rw [dictFind, if_pos rfl] at ha0
      cases ha0
      rw [sameShapeChildren]
      simp only [Bool.and_eq_true, beq_iff_eq]
      refine ⟨⟨by trivial, hs0⟩, ?_⟩
      apply ih hkeys' hnd.2
      intro k' b' hb'
      have hk' : k' ≠ k := by
        intro he
        exact hnd.1 (he ▸ mem_keysOf hb')
      obtain ⟨a', ha', hs'⟩ := hfind k' b' (List.mem_cons_of_mem _ hb')
      rw [dictFind, if_neg (fun he => hk' he.symm)] at ha'
      exact ⟨a', ha', hs'⟩

/-! ## Transport of reset-correctness and well-formedness along shape equality -/

theorem CorrectReset_sameShape {R : ResetFn} :
    ∀ m, CorrectReset R m → ∀ m', sameShape m' m = true → CorrectReset R m' := by
  apply Module.strongInd
    (P := fun m => CorrectReset R m → ∀ m', sameShape m' m = true → CorrectReset R m')
  intro tag ps bs cs IH hcr m' hshape
  obtain ⟨t', ps', bs', cs'⟩ := m'
  obtain ⟨ht, hps, hbs, hcs⟩ := sameShape_iff.mp hshape
  subst ht
  cases hcr with
  | intro _ _ _ _ hk hc =>
    obtain ⟨htags, hmem⟩ := sameShapeChildren_facts hcs
    refine CorrectReset.intro _ _ _ _ (fun ctr => ?_) ?_
    · obtain ⟨h1, h2, h3⟩ := hk ctr
      exact ⟨hps ▸ h1, hbs ▸ h2, htags ▸ h3⟩
    · intro k c' hc'
      obtain ⟨c, hcmem, hsc⟩ := hmem k c' hc'
      exact IH k c hcmem (hc k c hcmem) c' hsc

theorem WFMod_sameShape :
    ∀ m, WFMod m → ∀ m', sameShape m' m = true → WFMod m' := by
  apply Module.strongInd (P := fun m => WFMod m → ∀ m', sameShape m' m = true → WFMod m')
  intro tag ps bs cs IH hwf m' hshape
  obtain ⟨t', ps', bs', cs'⟩ := m'
  obtain ⟨ht, hps, hbs, hcs⟩ := sameShape_iff.mp hshape
  cases hwf with
  | intro _ _ _ _ hp hb hcnd hc =>
    obtain ⟨htags, hmem⟩ := sameShapeChildren_facts hcs
    refine WFMod.intro _ _ _ _ (hps ▸ hp) (hbs ▸ hb)
      (keysOf_eq_of_tagsOf_eq htags ▸ hcnd) ?_
    intro k c' hc'
    obtain ⟨c, hcmem, hsc⟩ := hmem k c' hc'
    exact IH k c hcmem (hc k c hcmem) c' hsc

/-! ## Characterization equations for the control-flow branches of `clone` -/

theorem clone_param_mismatch_eq {R : ResetFn} {tag : Nat} {ps bs : List (String × Nat)}
    {cs : List (String × Module)} {σ : Store} {ctr : Nat}
    (hp : ¬ (R tag ctr).parameters_.length = ps.length) :
    clone R (.mk tag ps bs cs) σ ctr =
      ⟨.error (.structuralMismatch parametersMismatchMsg), σ, [Event.resetRun tag],
        (R tag ctr).ctr⟩ := by
  rw [clone, if_neg hp]

theorem clone_buffer_mismatch_eq {R : ResetFn} {tag : Nat} {ps bs : List (String × Nat)}
    {cs : List (String × Module)} {σ : Store} {ctr : Nat} {σ1 : Store} {tr1 : List Event}
    (hp : (R tag ctr).parameters_.length = ps.length)
    (heq1 : copyLoop Event.copyParam (R tag ctr).parameters_ ps σ = (none, σ1, tr1))
    (hb : ¬ (R tag ctr).buffers_.length = bs.length) :
    clone R (.mk tag ps bs cs) σ ctr =
      ⟨.error (.structuralMismatch buffersMismatchMsg), σ1,
        Event.resetRun tag :: Event.paramCheckOk :: tr1, (R tag ctr).ctr⟩ := by
  rw [clone, if_pos hp]
  simp only [heq1]
  rw [if_neg hb]

theorem clone_children_mismatch_eq {R : ResetFn} {tag : Nat} {ps bs : List (String × Nat)}
    {cs : List (String × Module)} {σ : Store} {ctr : Nat} {σ1 σ2 : Store}
    {tr1 tr2 : List Event}
    (hp : (R tag ctr).parameters_.length = ps.length)
    (heq1 : copyLoop Event.copyParam (R tag ctr).parameters_ ps σ = (none, σ1, tr1))
    (hb : (R tag ctr).buffers_.length = bs.length)
    (heq2 : copyLoop Event.copyBuffer (R tag ctr).buffers_ bs σ1 = (none, σ2, tr2))
    (hc : ¬ (R tag ctr).children_.length = cs.length) :
    clone R (.mk tag ps bs cs) σ ctr =
      ⟨.error (.structuralMismatch childrenMismatchMsg), σ2,
        Event.resetRun tag :: Event.paramCheckOk :: tr1 ++ Event.bufferCheckOk :: tr2,
        (R tag ctr).ctr⟩ := by
  rw [clone, if_pos hp]
  simp only [heq1]
  rw [if_pos hb]
  simp only [heq2]
  rw [if_neg hc]

theorem clone_children_run_ok_eq {R : ResetFn} {tag : Nat} {ps bs : List (String × Nat)}
    {cs cs' : List (String × Module)} {σ : Store} {ctr : Nat} {σ1 σ2 : Store}
    {tr1 tr2 : List Event} {co : ChildrenOut}
    (hp : (R tag ctr).parameters_.length = ps.length)
    (heq1 : copyLoop Event.copyParam (R tag ctr).parameters_ ps σ = (none, σ1, tr1))
    (hb : (R tag ctr).buffers_.length = bs.length)
    (heq2 : copyLoop Event.copyBuffer (R tag ctr).buffers_ bs σ1 = (none, σ2, tr2))
    (hc : (R tag ctr).children_.length = cs.length)
    (hcc : cloneChildren R cs (R tag ctr).children_ σ2 (R tag ctr).ctr = co)
    (hres : co.res = .ok cs') :
    clone R (.mk tag ps bs cs) σ ctr =
      ⟨.ok (Module.mk tag (R tag ctr).parameters_ (R tag ctr).buffers_ cs'), co.store,
        Event.resetRun tag :: Event.paramCheckOk :: tr1 ++
          Event.bufferCheckOk :: tr2 ++ Event.childCheckOk :: co.trace, co.ctr⟩ := by
  rw [clone, if_pos hp]
  simp only [heq1]
  rw [if_pos hb]
  simp only [heq2]
  rw [if_pos hc]
  simp only [hcc, hres]

theorem clone_children_run_err_eq {R : ResetFn} {tag : Nat} {ps bs : List (String × Nat)}
    {cs : List (String × Module)} {σ : Store} {ctr : Nat} {σ1 σ2 : Store}
    {tr1 tr2 : List Event} {co : ChildrenOut} {e : CloneErr}
    (hp : (R tag ctr).parameters_.length = ps.length)
    (heq1 : copyLoop Event.copyParam (R tag ctr).parameters_ ps σ = (none, σ1, tr1))
    (hb : (R tag ctr).buffers_.length = bs.length)
    (heq2 : copyLoop Event.copyBuffer (R tag ctr).buffers_ bs σ1 = (none, σ2, tr2))
    (hc : (R tag ctr).children_.length = cs.length)
    (hcc : cloneChildren R cs (R tag ctr).children_ σ2 (R tag ctr).ctr = co)
    (hres : co.res = .error e) :
    clone R (.mk tag ps bs cs) σ ctr =
      ⟨.error e, co.store,
        Event.resetRun tag :: Event.paramCheckOk :: tr1 ++
          Event.bufferCheckOk :: tr2 ++ Event.childCheckOk :: co.trace, co.ctr⟩ := by
  rw [clone, if_pos hp]
  simp only [heq1]
  rw [if_pos hb]
  simp only [heq2]
  rw [if_pos hc]
  simp only [hcc, hres]

/-! ## Characterization equations for `cloneChildren` and `clone_` -/

theorem cloneChildren_nil_eq {R : ResetFn} {acc : List (String × Module)} {σ : Store}
    {ctr : Nat} : cloneChildren R [] acc σ ctr = ⟨.ok acc, σ, [], ctr⟩ := by
  rw [cloneChildren]

theorem cloneChildren_cons_missing_eq {R : ResetFn} {k : String} {oc : Module}
    {rest acc : List (String × Module)} {σ : Store} {ctr : Nat}
    (hfind : dictFind acc k = none) :
    cloneChildren R ((k, oc) :: rest) acc σ ctr = ⟨.error (.keyNotFound k), σ, [], ctr⟩ := by
  rw [cloneChildren]
  simp only [hfind]

theorem cloneChildren_cons_ok_eq {R : ResetFn} {k : String} {oc selfChild newChild : Module}
    {rest acc : List (String × Module)} {σ : Store} {ctr : Nat} {co : CloneOut}
    (hfind : dictFind acc k = some selfChild)
    (hco : clone_ R selfChild oc σ ctr = co)
    (hres : co.res = .ok newChild) :
    cloneChildren R ((k, oc) :: rest) acc σ ctr =
      ⟨(cloneChildren R rest (dictSet acc k newChild) co.store co.ctr).res,
        (cloneChildren R rest (dictSet acc k newChild) co.store co.ctr).store,
        Event.mergeChild k :: co.trace ++
          (cloneChildren R rest (dictSet acc k newChild) co.store co.ctr).trace,
        (cloneChildren R rest (dictSet acc k newChild) co.store co.ctr).ctr⟩ := by
  rw [cloneChildren]
  simp only [hfind, hco, hres]

theorem cloneChildren_cons_err_eq {R : ResetFn} {k : String} {oc selfChild : Module}
    {rest acc : List (String × Module)} {σ : Store} {ctr : Nat} {co : CloneOut}
    {e : CloneErr}
    (hfind : dictFind acc k = some selfChild)
    (hco : clone_ R selfChild oc σ ctr = co)
    (hres : co.res = .error e) :
    cloneChildren R ((k, oc) :: rest) acc σ ctr =
      ⟨.error e, co.store, Event.mergeChild k :: co.trace, co.ctr⟩ := by
  rw [cloneChildren]
  simp only [hfind, hco, hres]

theorem clone_merge_ok_eq {R : ResetFn} {self other : Module} {σ : Store} {ctr : Nat}
    {c : Module} (h : (clone R other σ ctr).res = .ok c) (ht : c.tag = self.tag) :
    clone_ R self other σ ctr =
      ⟨.ok c, (clone R other σ ctr).store, (clone R other σ ctr).trace,
        (clone R other σ ctr).ctr⟩ := by
  rw [clone_]
  simp only [h]
  rw [if_pos ht]

theorem clone_merge_badtag_eq {R : ResetFn} {self other : Module} {σ : Store} {ctr : Nat}
    {c : Module} (h : (clone R other σ ctr).res = .ok c) (ht : ¬ c.tag = self.tag) :
    clone_ R self other σ ctr =
      ⟨.error (.typeMismatch typeMismatchMsg), (clone R other σ ctr).store,
        (clone R other σ ctr).trace, (clone R other σ ctr).ctr⟩ := by
  rw [clone_]
  simp only [h]
  rw [if_neg ht]

theorem clone_merge_err_eq {R : ResetFn} {self other : Module} {σ : Store} {ctr : Nat}
    {e : CloneErr} (h : (clone R other σ ctr).res = .error e) :
    clone_ R self other σ ctr = clone R other σ ctr := by
  rw [clone_]
  simp only [h]

/-! ## Inversion of a successful `clone()` run -/

theorem clone_ok_inv {R : ResetFn} {tag : Nat} {ps bs : List (String × Nat)}
    {cs : List (String × Module)} {σ : Store} {ctr : Nat} {c : Module}
    (hok : (clone R (.mk tag ps bs cs) σ ctr).res = .ok c) :
    ∃ σ1 tr1 σ2 tr2,
      copyLoop Event.copyParam (R tag ctr).parameters_ ps σ = (none, σ1, tr1)
      ∧ copyLoop Event.copyBuffer (R tag ctr).buffers_ bs σ1 = (none, σ2, tr2)
      ∧ ∃ cs',
        (cloneChildren R cs (R tag ctr).children_ σ2 (R tag ctr).ctr).res = .ok cs'
        ∧ c = Module.mk tag (R tag ctr).parameters_ (R tag ctr).buffers_ cs'
        ∧ (clone R (.mk tag ps bs cs) σ ctr).store =
            (cloneChildren R cs (R tag ctr).children_ σ2 (R tag ctr).ctr).store
        ∧ (clone R (.mk tag ps bs cs) σ ctr).ctr =
            (cloneChildren R cs (R tag ctr).children_ σ2 (R tag ctr).ctr).ctr := by
  have hok' := hok
  rw [clone] at hok'
  split at hok'
  case isTrue hp =>
    split at hok'
    case h_1 e σ1 tr1 heq1 => simp at hok'
    case h_2 σ1 tr1 heq1 =>
      split at hok'
      case isTrue hb =>
        split at hok'
        case h_1 e σ2 tr2 heq2 => simp at hok'
        case h_2 σ2 tr2 heq2 =>
          split at hok'
          case isTrue hc =>
            dsimp only at hok'
            split at hok'
            case h_1 e heq3 => simp at hok'
            case h_2 cs' heq3 =>
              simp only [CloneOut.res] at hok'
              have hch := clone_children_run_ok_eq hp heq1 hb heq2 hc rfl heq3
              refine ⟨σ1, tr1, σ2, tr2, heq1, heq2, cs', heq3,
                (Except.ok.inj hok').symm, ?_, ?_⟩
              · rw [hch]
              · rw [hch]
          case isFalse hc => simp at hok'
      case isFalse hb => simp at hok'
  case isFalse hp => simp at hok'

theorem clone_param_fail_eq {R : ResetFn} {tag : Nat} {ps bs : List (String × Nat)}
    {cs : List (String × Module)} {σ : Store} {ctr : Nat} {e : CloneErr} {σ1 : Store}
    {tr1 : List Event}
    (hp : (R tag ctr).parameters_.length = ps.length)
    (heq1 : copyLoop Event.copyParam (R tag ctr).parameters_ ps σ = (some e, σ1, tr1)) :
    clone R (.mk tag ps bs cs) σ ctr =
      ⟨.error e, σ1, Event.resetRun tag :: Event.paramCheckOk :: tr1, (R tag ctr).ctr⟩ := by
  rw [clone, if_pos hp]
  simp only [heq1]

theorem clone_buffer_fail_eq {R : ResetFn} {tag : Nat} {ps bs : List (String × Nat)}
    {cs : List (String × Module)} {σ : Store} {ctr : Nat} {e : CloneErr} {σ1 σ2 : Store}
    {tr1 tr2 : List Event}
    (hp : (R tag ctr).parameters_.length = ps.length)
    (heq1 : copyLoop Event.copyParam (R tag ctr).parameters_ ps σ = (none, σ1, tr1))
    (hb : (R tag ctr).buffers_.length = bs.length)
    (heq2 : copyLoop Event.copyBuffer (R tag ctr).buffers_ bs σ1 = (some e, σ2, tr2)) :
    clone R (.mk tag ps bs cs) σ ctr =
      ⟨.error e, σ2,
        Event.resetRun tag :: Event.paramCheckOk :: tr1 ++ Event.bufferCheckOk :: tr2,
        (R tag ctr).ctr⟩ := by
  rw [clone, if_pos hp]
  simp only [heq1]
  rw [if_pos hb]
  simp only [heq2]

/-- State of `clone_` always coincides with the state of the underlying
polymorphic `clone` call (only the result differs, by the downcast check). -/
theorem clone_merge_state {R : ResetFn} (self other : Module) (σ : Store) (ctr : Nat) :
    (clone_ R self other σ ctr).store = (clone R other σ ctr).store
    ∧ (clone_ R self other σ ctr).ctr = (clone R other σ ctr).ctr := by
  cases hres : (clone R other σ ctr).res with
  | error e => rw [clone_merge_err_eq hres]; exact ⟨rfl, rfl⟩
  | ok c =>
    by_cases ht : c.tag = self.tag
    · rw [clone_merge_ok_eq hres ht]; exact ⟨rfl, rfl⟩
    · rw [clone_merge_badtag_eq hres ht]; exact ⟨rfl, rfl⟩

/-! ## Success and frame lemmas -/

theorem copyLoop_none_found (ev : String → Event) (dst : List (String × Nat)) :
    ∀ (src : List (String × Nat)) (σ : Store),
      (copyLoop ev dst src σ).1 = none → ∀ k ∈ keysOf src, k ∈ keysOf dst := by
  intro src
  induction src with
  | nil => intro σ _ k hk; simp [keysOf] at hk
  | cons p rest ih =>
    intro σ h k hk
    obtain ⟨k0, s0⟩ := p
    cases hd : dictFind dst k0 with
    | none =>
      rw [copyLoop] at h
      simp only [hd] at h
      exact Option.noConfusion h
    | some d =>
      rw [copyLoop] at h
      simp only [hd] at h
      simp only [keysOf, List.map_cons, List.mem_cons] at hk
      rcases hk with hk | hk
      · subst hk; exact mem_keysOf (dictFind_mem hd)
      · exact ih _ h k hk

theorem tagsOf_length (l : List (String × Module)) : (tagsOf l).length = l.length := by
  simp [tagsOf]

theorem cloneChildren_keys {R : ResetFn} :
    ∀ {origCs acc : List (String × Module)} {σ : Store} {ctr : Nat}
      {cs' : List (String × Module)},
      (cloneChildren R origCs acc σ ctr).res = .ok cs' → keysOf cs' = keysOf acc := by
  intro origCs
  induction origCs with
  | nil =>
    intro acc σ ctr cs' h
    rw [cloneChildren_nil_eq] at h
    cases h
    rfl
  | cons p rest ih =>
    intro acc σ ctr cs' h
    obtain ⟨k, oc⟩ := p
    cases hfind : dictFind acc k with
    | none => rw [cloneChildren_cons_missing_eq hfind] at h; cases h
    | some selfChild =>
      cases hres : (clone_ R selfChild oc σ ctr).res with
      | error e =>
        rw [cloneChildren_cons_err_eq hfind rfl hres] at h
        cases h
      | ok newChild =>
        rw [cloneChildren_cons_ok_eq hfind rfl hres] at h
        have := ih h
        rw [this, keysOf_dictSet]

theorem cloneChildren_ok {R : ResetFn} :
    ∀ {origCs : List (String × Module)},
      (keysOf origCs).Nodup →
      (∀ k oc, (k, oc) ∈ origCs → ∀ (σ' : Store) (ctr' : Nat),
        ∃ c, (clone R oc σ' ctr').res = .ok c ∧ sameShape c oc = true) →
      ∀ {acc : List (String × Module)},
        (∀ k oc, (k, oc) ∈ origCs → ∃ a, dictFind acc k = some a ∧ a.tag = oc.tag) →
        ∀ (σ : Store) (ctr : Nat),
        ∃ cs', (cloneChildren R origCs acc σ ctr).res = .ok cs'
          ∧ keysOf cs' = keysOf acc
          ∧ (∀ k oc, (k, oc) ∈ origCs →
              ∃ c', dictFind cs' k = some c' ∧ sameShape c' oc = true)
          ∧ (∀ k, k ∉ keysOf origCs → dictFind cs' k = dictFind acc k) := by
  intro origCs
  induction origCs with
  | nil =>
    intro _ _ acc _ σ ctr
    refine ⟨acc, by rw [cloneChildren_nil_eq], rfl, by simp, fun k _ => rfl⟩
  | cons p rest ih =>
    intro hnd hclone acc hfind σ ctr
    obtain ⟨k0, oc0⟩ := p
    simp only [keysOf, List.map_cons, List.nodup_cons] at hnd
    obtain ⟨a0, ha0, htag0⟩ := hfind k0 oc0 (List.mem_cons_self _ _)
    obtain ⟨c0, hc0res, hc0shape⟩ := hclone k0 oc0 (List.mem_cons_self _ _) σ ctr
    have htagc : c0.tag = a0.tag := by rw [sameShape_tag hc0shape, htag0]
    have hres : (clone_ R a0 oc0 σ ctr).res = .ok c0 := by
      rw [clone_merge_ok_eq hc0res htagc]
    have hfind' : ∀ k oc, (k, oc) ∈ rest →
        ∃ a, dictFind (dictSet acc k0 c0) k = some a ∧ a.tag = oc.tag := by
      intro k oc hmem
      have hkne : k ≠ k0 := fun he => hnd.1 (he ▸ mem_keysOf hmem)
      rw [dictFind_dictSet_ne hkne]
      exact hfind k oc (List.mem_cons_of_mem _ hmem)
    have hclone' : ∀ k oc, (k, oc) ∈ rest → ∀ (σ' : Store) (ctr' : Nat),
        ∃ c, (clone R oc σ' ctr').res = .ok c ∧ sameShape c oc = true :=
      fun k oc hmem => hclone k oc (List.mem_cons_of_mem _ hmem)
    obtain ⟨cs', hres', hkeys', hhit', hmiss'⟩ :=
      ih hnd.2 hclone' hfind'
        (clone_ R a0 oc0 σ ctr).store (clone_ R a0 oc0 σ ctr).ctr
    refine ⟨cs', ?_, ?_, ?_, ?_⟩
    · rw [cloneChildren_cons_ok_eq ha0 rfl hres]
      exact hres'
    · rw [hkeys', keysOf_dictSet]
    · intro k oc hmem
      rcases List.mem_cons.mp hmem with hmem | hmem
      · cases hmem
        refine ⟨c0, ?_, hc0shape⟩
        rw [hmiss' k0 hnd.1, dictFind_dictSet_self (mem_keysOf (dictFind_mem ha0)) c0]
      · exact hhit' k oc hmem
    · intro k hk
      simp only [keysOf, List.map_cons, List.mem_cons] at hk
      push_neg at hk
      rw [hmiss' k hk.2, dictFind_dictSet_ne hk.1]

theorem clone_ok {R : ResetFn} :
    ∀ m, CorrectReset R m → WFMod m → ∀ (σ : Store) (ctr : Nat),
      ∃ c, (clone R m σ ctr).res = .ok c ∧ sameShape c m = true := by
  apply Module.strongInd
    (P := fun m => CorrectReset R m → WFMod m → ∀ (σ : Store) (ctr : Nat),
      ∃ c, (clone R m σ ctr).res = .ok c ∧ sameShape c m = true)
  intro tag ps bs cs IH hcr hwf σ ctr
  cases hcr with
  | intro _ _ _ _ hk hc =>
    cases hwf with
    | intro _ _ _ _ hpnd hbnd hcnd hwfc =>
      obtain ⟨hkp, hkb, hkc⟩ := hk ctr
      have hp : (R tag ctr).parameters_.length = ps.length := by
        simpa only [keysOf_length] using congrArg List.length hkp
      have hblen : (R tag ctr).buffers_.length = bs.length := by
        simpa only [keysOf_length] using congrArg List.length hkb
      have hclen : (R tag ctr).children_.length = cs.length := by
        simpa only [tagsOf_length] using congrArg List.length hkc
      rcases hcp : copyLoop Event.copyParam (R tag ctr).parameters_ ps σ with ⟨e1, σ1, tr1⟩
      have h1 := copyLoop_ok Event.copyParam (R tag ctr).parameters_ ps σ
        (by rw [hkp]; exact fun k h => h)
      rw [hcp] at h1
      have he1 : e1 = none := h1.1
      subst he1
      rcases hcb : copyLoop Event.copyBuffer (R tag ctr).buffers_ bs σ1 with ⟨e2, σ2, tr2⟩
      have h2 := copyLoop_ok Event.copyBuffer (R tag ctr).buffers_ bs σ1
        (by rw [hkb]; exact fun k h => h)
      rw [hcb] at h2
      have he2 : e2 = none := h2.1
      subst he2
      have hfind : ∀ k oc, (k, oc) ∈ cs →
          ∃ a, dictFind (R tag ctr).children_ k = some a ∧ a.tag = oc.tag := by
        intro k oc hmem
        have hmemt : (k, oc.tag) ∈ tagsOf cs := by
          simp only [tagsOf, List.mem_map]
          exact ⟨(k, oc), hmem, rfl⟩
        rw [← hkc] at hmemt
        simp only [tagsOf, List.mem_map] at hmemt
        obtain ⟨⟨k', a⟩, hmem', heq⟩ := hmemt
        obtain ⟨hk1, hk2⟩ := Prod.mk.inj heq
        subst hk1
        have hndk : (keysOf (R tag ctr).children_).Nodup := by
          rw [keysOf_eq_of_tagsOf_eq hkc]; exact hcnd
        exact ⟨a, dictFind_of_mem_nodup hndk hmem', hk2⟩
      have hcloneIH : ∀ k oc, (k, oc) ∈ cs → ∀ (σ' : Store) (ctr' : Nat),
          ∃ c, (clone R oc σ' ctr').res = .ok c ∧ sameShape c oc = true :=
        fun k oc hmem => IH k oc hmem (hc k oc hmem) (hwfc k oc hmem)
      obtain ⟨cs', hresC, hkeysC, hhitC, _⟩ :=
        cloneChildren_ok hcnd hcloneIH hfind σ2 (R tag ctr).ctr
      have hch := clone_children_run_ok_eq hp hcp hblen hcb hclen rfl hresC
      refine ⟨Module.mk tag (R tag ctr).parameters_ (R tag ctr).buffers_ cs', ?_, ?_⟩
      · rw [hch]
      · apply sameShape_iff.mpr
        refine ⟨rfl, hkp, hkb, ?_⟩
        apply sameShapeChildren_intro (keysOf_eq_of_tagsOf_eq hkc ▸ hkeysC) hcnd
        intro k b hb
        exact hhitC k b hb

theorem cloneChildren_frame {R : ResetFn} :
    ∀ {origCs : List (String × Module)},
      (∀ k oc, (k, oc) ∈ origCs → ∀ (σ' : Store) (ctr' : Nat),
        ctr' ≤ (clone R oc σ' ctr').ctr
        ∧ ∀ s, s < ctr' → readStore (clone R oc σ' ctr').store s = readStore σ' s) →
      ∀ (acc : List (String × Module)) (σ : Store) (ctr : Nat),
        ctr ≤ (cloneChildren R origCs acc σ ctr).ctr
        ∧ ∀ s, s < ctr → readStore (cloneChildren R origCs acc σ ctr).store s = readStore σ s := by
  intro origCs
  induction origCs with
  | nil =>
    intro _ acc σ ctr
    rw [cloneChildren_nil_eq]
    exact ⟨le_rfl, fun s _ => rfl⟩
  | cons p rest ih =>
    intro hframe acc σ ctr
    obtain ⟨k0, oc0⟩ := p
    cases hfind : dictFind acc k0 with
    | none =>
      rw [cloneChildren_cons_missing_eq hfind]
      exact ⟨le_rfl, fun s _ => rfl⟩
    | some selfChild =>
      have hoc := hframe k0 oc0 (List.mem_cons_self _ _) σ ctr
      have hst := clone_merge_state (R := R) selfChild oc0 σ ctr
      have hctr0 : ctr ≤ (clone_ R selfChild oc0 σ ctr).ctr := by rw [hst.2]; exact hoc.1
      have hrd0 : ∀ s, s < ctr →
          readStore (clone_ R selfChild oc0 σ ctr).store s = readStore σ s := by
        intro s hs
        rw [hst.1]
        exact hoc.2 s hs
      cases hres : (clone_ R selfChild oc0 σ ctr).res with
      | error e =>
        rw [cloneChildren_cons_err_eq hfind rfl hres]
        exact ⟨hctr0, hrd0⟩
      | ok newChild =>
        rw [cloneChildren_cons_ok_eq hfind rfl hres]
        have hrest := ih (fun k oc hmem => hframe k oc (List.mem_cons_of_mem _ hmem))
          (dictSet acc k0 newChild)
          (clone_ R selfChild oc0 σ ctr).store
          (clone_ R selfChild oc0 σ ctr).ctr
        refine ⟨le_trans hctr0 hrest.1, ?_⟩
        intro s hs
        rw [hrest.2 s (lt_of_lt_of_le hs hctr0)]
        exact hrd0 s hs

theorem clone_frame {R : ResetFn} (hR : FreshReset R) :
    ∀ m (σ : Store) (ctr : Nat),
      ctr ≤ (clone R m σ ctr).ctr
      ∧ ∀ s, s < ctr → readStore (clone R m σ ctr).store s = readStore σ s := by
  apply Module.strongInd
    (P := fun m => ∀ (σ : Store) (ctr : Nat),
      ctr ≤ (clone R m σ ctr).ctr
      ∧ ∀ s, s < ctr → readStore (clone R m σ ctr).store s = readStore σ s)
  intro tag ps bs cs IH σ ctr
  obtain ⟨hctr, hbnd, _⟩ := hR tag ctr
  by_cases hp : (R tag ctr).parameters_.length = ps.length
  case neg =>
    rw [clone_param_mismatch_eq hp]
    exact ⟨hctr, fun s _ => rfl⟩
  case pos =>
    rcases hcp : copyLoop Event.copyParam (R tag ctr).parameters_ ps σ with ⟨e1, σ1, tr1⟩
    have hfr1 : ∀ s, s < ctr → readStore σ1 s = readStore σ s := by
      intro s hs
      have hprot : ∀ k d, k ∈ keysOf ps →
          dictFind (R tag ctr).parameters_ k = some d → d ≠ s := by
        intro k d _ hd he
        have : d ∈ routSids (R tag ctr) :=
          List.mem_append_left _ (valsOf_mem_of_dictFind hd)
        exact absurd (he ▸ hs) (not_lt.mpr (hbnd d this).1)
      have := copyLoop_frame Event.copyParam (R tag ctr).parameters_ ps σ s hprot
      rw [hcp] at this
      exact this
    cases e1 with
    | some e =>
      rw [clone_param_fail_eq hp hcp]
      exact ⟨hctr, hfr1⟩
    | none =>
      by_cases hblen : (R tag ctr).buffers_.length = bs.length
      case neg =>
        rw [clone_buffer_mismatch_eq hp hcp hblen]
        exact ⟨hctr, hfr1⟩
      case pos =>
        rcases hcb : copyLoop Event.copyBuffer (R tag ctr).buffers_ bs σ1 with ⟨e2, σ2, tr2⟩
        have hfr2 : ∀ s, s < ctr → readStore σ2 s = readStore σ s := by
          intro s hs
          have hprot : ∀ k d, k ∈ keysOf bs →
              dictFind (R tag ctr).buffers_ k = some d → d ≠ s := by
            intro k d _ hd he
            have : d ∈ routSids (R tag ctr) :=
              List.mem_append_right _ (valsOf_mem_of_dictFind hd)
            exact absurd (he ▸ hs) (not_lt.mpr (hbnd d this).1)
          have := copyLoop_frame Event.copyBuffer (R tag ctr).buffers_ bs σ1 s hprot
          rw [hcb] at this
          rw [this]
          exact hfr1 s hs
        cases e2 with
        | some e =>
          rw [clone_buffer_fail_eq hp hcp hblen hcb]
          exact ⟨hctr, hfr2⟩
        | none =>
          by_cases hclen : (R tag ctr).children_.length = cs.length
          case neg =>
            rw [clone_children_mismatch_eq hp hcp hblen hcb hclen]
            exact ⟨hctr, hfr2⟩
          case pos =>
            have hcf := cloneChildren_frame
              (fun k oc hmem => IH k oc hmem)
              (R tag ctr).children_ σ2 (R tag ctr).ctr
            cases hresC : (cloneChildren R cs (R tag ctr).children_ σ2 (R tag ctr).ctr).res with
            | error e =>
              rw [clone_children_run_err_eq hp hcp hblen hcb hclen rfl hresC]
              refine ⟨le_trans hctr hcf.1, ?_⟩
              intro s hs
              rw [hcf.2 s (lt_of_lt_of_le hs hctr)]
              exact hfr2 s hs
            | ok cs' =>
              rw [clone_children_run_ok_eq hp hcp hblen hcb hclen rfl hresC]
              refine ⟨le_trans hctr hcf.1, ?_⟩
              intro s hs
              rw [hcf.2 s (lt_of_lt_of_le hs hctr)]
              exact hfr2 s hs

/-! ## Claim theorems -/

/-- C2: for every module M whose reset implementation re-registers the same
parameter, buffer, and child names (with the originally constructed child
types) as M's original construction, `clone(M)` succeeds and returns a module
whose parameter name-set, buffer name-set, and child name-set are identical to
M's, recursively for every child (`sameShape`).  `WFMod` is the spec's
data-model invariant that names are unique within each dict. -/
theorem claim_C2_clone_preserves_shape (R : ResetFn) (m : Module) (σ : Store) (ctr : Nat)
    (hcr : CorrectReset R m) (hwf : WFMod m) :
    ∃ c, (clone R m σ ctr).res = .ok c ∧ sameShape c m = true :=
  clone_ok m hcr hwf σ ctr

/-- C2 witness: the `Container`/`Linear` fixture with its correct reset. -/
theorem claim_C2_witness :
    ∃ c, (clone resetGood containerModule [] 0).res = .ok c
      ∧ sameShape c containerModule = true := by
  have hcr : CorrectReset resetGood containerModule := by
    refine CorrectReset.intro 0 [] [] [("inner", linearModule)]
      (fun ctr => ⟨rfl, rfl, rfl⟩) ?_
    intro k c hmem
    simp only [List.mem_singleton, Prod.mk.injEq] at hmem
    obtain ⟨h1, h2⟩ := hmem
    subst h2
    refine CorrectReset.intro 1 [("weight", 0), ("bias", 1)] [] []
      (fun ctr => ⟨rfl, rfl, rfl⟩) ?_
    intro k c hmem
    simp at hmem
  have hwf : WFMod containerModule := by
    refine WFMod.intro 0 [] [] [("inner", linearModule)]
      (by simp [keysOf]) (by simp [keysOf]) (by simp [keysOf]) ?_
    intro k c hmem
    simp only [List.mem_singleton, Prod.mk.injEq] at hmem
    obtain ⟨h1, h2⟩ := hmem
    subst h2
    refine WFMod.intro 1 [("weight", 0), ("bias", 1)] [] []
      (by simp [keysOf]) (by simp [keysOf]) (by simp [keysOf]) ?_
    intro k c hmem
    simp at hmem
  exact claim_C2_clone_preserves_shape resetGood containerModule [] 0 hcr hwf

/-- C4: if `reset()` on the fresh copy registers a number of parameters
different from the original's parameter count, `clone()` fails with the
parameter `StructuralMismatch` error, performs no data copying at all (the
store is untouched and the trace holds no copy event), and the error message
hints that the likely cause is registering parameters in the constructor
rather than inside `reset()`. -/
theorem claim_C4_param_mismatch_aborts_before_copy (R : ResetFn) (m : Module) (σ : Store)
    (ctr : Nat) (h : ¬ (R m.tag ctr).parameters_.length = m.parameters_.length) :
    (clone R m σ ctr).res = .error (.structuralMismatch parametersMismatchMsg)
    ∧ (clone R m σ ctr).store = σ
    ∧ (clone R m σ ctr).trace = [Event.resetRun m.tag]
    ∧ containsSubstr parametersMismatchMsg "inside reset() and not the constructor" = true := by
  obtain ⟨tag, ps, bs, cs⟩ := m
  simp only [Module.tag, Module.parameters_] at h
  rw [clone_param_mismatch_eq h]
  refine ⟨rfl, rfl, rfl, ?_⟩
  decide

/-- C4 witness: a reset that registers no parameter for a one-parameter module. -/
theorem claim_C4_witness :
    (clone resetNone paramBufferModule initialStore 2).res
        = .error (.structuralMismatch parametersMismatchMsg)
    ∧ (clone resetNone paramBufferModule initialStore 2).store = initialStore
    ∧ (clone resetNone paramBufferModule initialStore 2).trace = [Event.resetRun 0]
    ∧ containsSubstr parametersMismatchMsg "inside reset() and not the constructor" = true := by
  have h := claim_C4_param_mismatch_aborts_before_copy resetNone paramBufferModule
    initialStore 2 (by decide)
  simpa [paramBufferModule] using h

/-- C5: during the child-merge `clone_(other)`, if the polymorphic clone of
`other` does not downcast to `self`'s concrete type, the operation fails with
the `TypeMismatch` error whose message states that a submodule clone attempt
encountered a module of a different type, and no merged module is produced
(so `self`'s state is never replaced — replacement only happens through an
`ok` result). -/
theorem claim_C5_merge_type_mismatch (R : ResetFn) (self other : Module) (σ : Store)
    (ctr : Nat) (c : Module) (hok : (clone R other σ ctr).res = .ok c)
    (hne : ¬ c.tag = self.tag) :
    (clone_ R self other σ ctr).res = .error (.typeMismatch typeMismatchMsg)
    ∧ (∀ c', (clone_ R self other σ ctr).res ≠ .ok c')
    ∧ containsSubstr typeMismatchMsg "different type" = true := by
  rw [clone_merge_badtag_eq hok hne]
  refine ⟨rfl, ?_, by decide⟩
  intro c' h
  simp at h

/-- C5 witness: merging a tag-5 module's clone into a tag-7 slot fails. -/
theorem claim_C5_witness :
    (clone_ resetNone mismatchedChildSelf mismatchedChildOther [] 0).res
        = .error (.typeMismatch typeMismatchMsg)
    ∧ (∀ c', (clone_ resetNone mismatchedChildSelf mismatchedChildOther [] 0).res ≠ .ok c')
    ∧ containsSubstr typeMismatchMsg "different type" = true := by
  have hok : (clone resetNone mismatchedChildOther [] 0).res = .ok (.mk 5 [] [] []) := by
    simp [clone, mismatchedChildOther, resetNone, copyLoop, cloneChildren]
  exact claim_C5_merge_type_mismatch resetNone mismatchedChildSelf mismatchedChildOther
    [] 0 (.mk 5 [] [] []) hok (by decide)

/-- C6: `clone()` never mutates the source: whether it succeeds or fails, the
data of every tensor storage reachable from the source module tree is
unchanged (the source module value itself, being a pure value, is unchanged by
construction; reset-allocated storage is fresh, above `ctr`). -/
theorem claim_C6_source_unchanged (R : ResetFn) (m : Module) (σ : Store) (ctr : Nat)
    (hR : FreshReset R) (hlow : ∀ s ∈ Module.sids m, s < ctr) :
    ∀ s ∈ Module.sids m, readStore (clone R m σ ctr).store s = readStore σ s :=
  fun s hs => (clone_frame hR m σ ctr).2 s (hlow s hs)

/-- C6 witness: cloning the parameter/buffer fixture leaves storages 0 and 1
(holding `[42]` and `[7]`) untouched. -/
theorem claim_C6_witness :
    readStore (clone resetWB paramBufferModule initialStore 2).store 0
        = readStore initialStore 0
    ∧ readStore (clone resetWB paramBufferModule initialStore 2).store 1
        = readStore initialStore 1 := by
  have hR : FreshReset resetWB := by
    intro tag ctr
    refine ⟨?_, ?_, ?_⟩
    · simp only [resetWB]
      omega
    · intro s hs
      simp only [resetWB, routSids, valsOf] at hs
      simp only [resetWB]
      simp at hs
      rcases hs with h | h <;> omega
    · simp only [resetWB, routSids, valsOf]
      simp
  have h := claim_C6_source_unchanged resetWB paramBufferModule initialStore 2 hR (by decide)
  exact ⟨h 0 (by decide), h 1 (by decide)⟩

/-- C7: a successful `clone()` first copy-constructs and clears all three
dicts and only then runs `reset()`; consequently everything in the returned
module's dicts was produced by `reset()`: its parameter and buffer dicts are
exactly the ones `reset()` registered, and its child names are exactly the
child names `reset()` registered — nothing is inherited from the shallow
copy. -/
theorem claim_C7_result_dicts_come_from_reset (R : ResetFn) (m : Module) (σ : Store)
    (ctr : Nat) (c : Module) (hok : (clone R m σ ctr).res = .ok c) :
    c.parameters_ = (R m.tag ctr).parameters_
    ∧ c.buffers_ = (R m.tag ctr).buffers_
    ∧ keysOf c.children_ = keysOf (R m.tag ctr).children_ := by
  obtain ⟨tag, ps, bs, cs⟩ := m
  obtain ⟨σ1, tr1, σ2, tr2, _, _, cs', hresC, hceq, _, _⟩ := clone_ok_inv hok
  subst hceq
  exact ⟨rfl, rfl, cloneChildren_keys hresC⟩

/-- C7 witness: the trivial module with the empty reset. -/
theorem claim_C7_witness :
    (Module.mk 0 [] [] []).parameters_ = (resetNone 0 0).parameters_
    ∧ (Module.mk 0 [] [] []).buffers_ = (resetNone 0 0).buffers_
    ∧ keysOf (Module.mk 0 [] [] []).children_ = keysOf (resetNone 0 0).children_ := by
  have hok : (clone resetNone emptyModule [] 0).res = .ok (.mk 0 [] [] []) := by
    simp [clone, emptyModule, resetNone, copyLoop, cloneChildren]
  have h := claim_C7_result_dicts_come_from_reset resetNone emptyModule [] 0
    (.mk 0 [] [] []) hok
  simpa [emptyModule] using h

/-- C8: cloning is shape-preserving and composable: for every module with a
correct reset implementation, cloning the clone yields a tree structurally
identical to the clone of the original. -/
theorem claim_C8_clone_composable (R : ResetFn) (m : Module)
    (hcr : CorrectReset R m) (hwf : WFMod m) (σ : Store) (ctr : Nat) (σ' : Store)
    (ctr' : Nat) :
    ∃ c c', (clone R m σ ctr).res = .ok c ∧ (clone R c σ' ctr').res = .ok c'
      ∧ sameShape c' c = true := by
  obtain ⟨c, hres, hshape⟩ := clone_ok m hcr hwf σ ctr
  have hcr' := CorrectReset_sameShape m hcr c hshape
  have hwf' := WFMod_sameShape m hwf c hshape
  obtain ⟨c', hres', hshape'⟩ := clone_ok c hcr' hwf' σ' ctr'
  exact ⟨c, c', hres, hres', hshape'⟩

/-- C8 witness: the `Container`/`Linear` fixture, cloned twice. -/
theorem claim_C8_witness :
    ∃ c c', (clone resetGood containerModule [] 0).res = .ok c
      ∧ (clone resetGood c [] 0).res = .ok c' ∧ sameShape c' c = true := by
  have hcr : CorrectReset resetGood containerModule := by
    refine CorrectReset.intro 0 [] [] [("inner", linearModule)]
      (fun ctr => ⟨rfl, rfl, rfl⟩) ?_
    intro k c hmem
    simp only [List.mem_singleton, Prod.mk.injEq] at hmem
    obtain ⟨h1, h2⟩ := hmem
    subst h2
    refine CorrectReset.intro 1 [("weight", 0), ("bias", 1)] [] []
      (fun ctr => ⟨rfl, rfl, rfl⟩) ?_
    intro k c hmem
    simp at hmem
  have hwf : WFMod containerModule := by
    refine WFMod.intro 0 [] [] [("inner", linearModule)]
      (by simp [keysOf]) (by simp [keysOf]) (by simp [keysOf]) ?_
    intro k c hmem
    simp only [List.mem_singleton, Prod.mk.injEq] at hmem
    obtain ⟨h1, h2⟩ := hmem
    subst h2
    refine WFMod.intro 1 [("weight", 0), ("bias", 1)] [] []
      (by simp [keysOf]) (by simp [keysOf]) (by simp [keysOf]) ?_
    intro k c hmem
    simp at hmem
  exact claim_C8_clone_composable resetGood containerModule hcr hwf [] 0 [] 0

/-- C9: the structural verification compares only entry counts, not names:
for a module whose `reset()` registers the same number of children as the
original construction but under a different name, all three structural checks
pass (their trace events are recorded) and no `StructuralMismatch` error is
raised — the run fails only later, with a missing-key error from the child
merge lookup. -/
theorem claim_C9_checks_count_only :
    (clone resetRenameChild renamedChildModule [] 0).res = .error (.keyNotFound "inner")
    ∧ (∀ msg, (clone resetRenameChild renamedChildModule [] 0).res
        ≠ .error (.structuralMismatch msg))
    ∧ Event.paramCheckOk ∈ (clone resetRenameChild renamedChildModule [] 0).trace
    ∧ Event.bufferCheckOk ∈ (clone resetRenameChild renamedChildModule [] 0).trace
    ∧ Event.childCheckOk ∈ (clone resetRenameChild renamedChildModule [] 0).trace := by
  have hch : clone resetRenameChild renamedChildModule [] 0 =
      ⟨.error (.keyNotFound "inner"), [],
        [Event.resetRun 0, Event.paramCheckOk, Event.bufferCheckOk, Event.childCheckOk],
        0⟩ := by
    simp [clone, renamedChildModule, resetRenameChild, copyLoop, cloneChildren, dictFind]
  rw [hch]
  refine ⟨rfl, ?_, by simp, by simp, by simp⟩
  intro msg h
  cases h

/-- C10: the module returned by a successful `clone()` has dynamic type
exactly the concrete type of the source (`tag`), so the checked downcast in
`clone_` on a well-formed child (whose slot type equals the child's type)
always succeeds and merges the clone. -/
theorem claim_C10_clone_dynamic_type (R : ResetFn) (m : Module) (σ : Store) (ctr : Nat)
    (c : Module) (hok : (clone R m σ ctr).res = .ok c) :
    c.tag = m.tag
    ∧ ∀ self : Module, self.tag = m.tag → (clone_ R self m σ ctr).res = .ok c := by
  obtain ⟨tag, ps, bs, cs⟩ := m
  obtain ⟨σ1, tr1, σ2, tr2, _, _, cs', _, hceq, _, _⟩ := clone_ok_inv hok
  have htag : c.tag = (Module.mk tag ps bs cs).tag := by rw [hceq]; rfl
  refine ⟨htag, ?_⟩
  intro self hself
  rw [clone_merge_ok_eq hok (by rw [htag, hself])]

/-- C10 witness: the empty module's clone downcasts into a same-tag slot. -/
theorem claim_C10_witness :
    (Module.mk 0 [] [] []).tag = emptyModule.tag
    ∧ (clone_ resetNone emptyModule emptyModule [] 0).res = .ok (.mk 0 [] [] []) := by
  have hok : (clone resetNone emptyModule [] 0).res = .ok (.mk 0 [] [] []) := by
    simp [clone, emptyModule, resetNone, copyLoop, cloneChildren]
  have h := claim_C10_clone_dynamic_type resetNone emptyModule [] 0 (.mk 0 [] [] []) hok
  exact ⟨h.1, h.2 emptyModule rfl⟩

/-- C1 counterexample: with a reset that re-registers the parameter but forgets
the buffer, the buffer-count check fails, yet parameter data has already been
copied before that check: the parameter copy event is in the trace and the
fresh parameter storage (id 2), empty before the call, now holds the source
data `[42]`.  This refutes "the three structural checks all pass before any
tensor data copying is performed / on any check failure clone() aborts without
having copied any data": the checks are interleaved with the copy loops. -/
theorem claim_C1_counterexample :
    (clone resetDropBuffer paramBufferModule initialStore 2).res
        = .error (.structuralMismatch buffersMismatchMsg)
    ∧ Event.copyParam "w" ∈ (clone resetDropBuffer paramBufferModule initialStore 2).trace
    ∧ readStore (clone resetDropBuffer paramBufferModule initialStore 2).store 2 = [42]
    ∧ readStore initialStore 2 = [] := by
  refine ⟨?_, ?_, ?_, ?_⟩ <;>
    simp [clone, resetDropBuffer, paramBufferModule, initialStore, copyLoop, dictFind,
      readStore, writeStore]

/-- C1 (amended): each structural check passes before its *own* category's
copying, and any check failure aborts `clone()` immediately with a
`StructuralMismatch` error and no clone value: on a parameter-count failure
nothing at all has been copied (store untouched, no copy events); on a
buffer-count failure no buffer has been copied and no child merged (though
parameter copies have already happened); on a child-count failure no child has
been merged (though parameter and buffer copies have already happened). -/
theorem claim_C1_amended_checks_precede_own_copy (R : ResetFn) (m : Module) (σ : Store)
    (ctr : Nat) :
    (¬ (R m.tag ctr).parameters_.length = m.parameters_.length →
      (clone R m σ ctr).res = .error (.structuralMismatch parametersMismatchMsg)
      ∧ (clone R m σ ctr).store = σ
      ∧ (clone R m σ ctr).trace = [Event.resetRun m.tag])
    ∧ (keysOf (R m.tag ctr).parameters_ = keysOf m.parameters_ →
        ¬ (R m.tag ctr).buffers_.length = m.buffers_.length →
      (clone R m σ ctr).res = .error (.structuralMismatch buffersMismatchMsg)
      ∧ (∀ k, Event.copyBuffer k ∉ (clone R m σ ctr).trace)
      ∧ (∀ k, Event.mergeChild k ∉ (clone R m σ ctr).trace))
    ∧ (keysOf (R m.tag ctr).parameters_ = keysOf m.parameters_ →
        keysOf (R m.tag ctr).buffers_ = keysOf m.buffers_ →
        ¬ (R m.tag ctr).children_.length = m.children_.length →
      (clone R m σ ctr).res = .error (.structuralMismatch childrenMismatchMsg)
      ∧ (∀ k, Event.mergeChild k ∉ (clone R m σ ctr).trace)) := by
  obtain ⟨tag, ps, bs, cs⟩ := m
  simp only [Module.tag, Module.parameters_, Module.buffers_, Module.children_]
  refine ⟨?_, ?_, ?_⟩
  · intro hp
    rw [clone_param_mismatch_eq hp]
    exact ⟨rfl, rfl, rfl⟩
  · intro hkp hb
    have hp : (R tag ctr).parameters_.length = ps.length := by
      simpa only [keysOf_length] using congrArg List.length hkp
    rcases hcp : copyLoop Event.copyParam (R tag ctr).parameters_ ps σ with ⟨e1, σ1, tr1⟩
    have h1 := copyLoop_ok Event.copyParam (R tag ctr).parameters_ ps σ
      (by rw [hkp]; exact fun k h => h)
    rw [hcp] at h1
    have he1 : e1 = none := h1.1
    subst he1
    have htr1 : tr1 = (keysOf ps).map Event.copyParam := h1.2
    rw [clone_buffer_mismatch_eq hp hcp hb]
    refine ⟨rfl, ?_, ?_⟩
    · intro k hmem
      simp [htr1] at hmem
    · intro k hmem
      simp [htr1] at hmem
  · intro hkp hkb hc
    have hp : (R tag ctr).parameters_.length = ps.length := by
      simpa only [keysOf_length] using congrArg List.length hkp
    have hbl : (R tag ctr).buffers_.length = bs.length := by
      simpa only [keysOf_length] using congrArg List.length hkb
    rcases hcp : copyLoop Event.copyParam (R tag ctr).parameters_ ps σ with ⟨e1, σ1, tr1⟩
    have h1 := copyLoop_ok Event.copyParam (R tag ctr).parameters_ ps σ
      (by rw [hkp]; exact fun k h => h)
    rw [hcp] at h1
    have he1 : e1 = none := h1.1
    subst he1
    have htr1 : tr1 = (keysOf ps).map Event.copyParam := h1.2
    rcases hcb : copyLoop Event.copyBuffer (R tag ctr).buffers_ bs σ1 with ⟨e2, σ2, tr2⟩
    have h2 := copyLoop_ok Event.copyBuffer (R tag ctr).buffers_ bs σ1
      (by rw [hkb]; exact fun k h => h)
    rw [hcb] at h2
    have he2 : e2 = none := h2.1
    subst he2
    have htr2 : tr2 = (keysOf bs).map Event.copyBuffer := h2.2
    rw [clone_children_mismatch_eq hp hcp hbl hcb hc]
    refine ⟨rfl, ?_⟩
    intro k hmem
    simp [htr1, htr2] at hmem

/-- C1 amended witness: the drop-the-buffer fixture takes the buffer-mismatch
branch of the amended claim. -/
theorem claim_C1_amended_witness :
    (clone resetDropBuffer paramBufferModule initialStore 2).res
        = .error (.structuralMismatch buffersMismatchMsg)
    ∧ (∀ k, Event.copyBuffer k
        ∉ (clone resetDropBuffer paramBufferModule initialStore 2).trace)
    ∧ (∀ k, Event.mergeChild k
        ∉ (clone resetDropBuffer paramBufferModule initialStore 2).trace) := by
  exact (claim_C1_amended_checks_precede_own_copy resetDropBuffer paramBufferModule
    initialStore 2).2.1 (by decide) (by decide)

/-- C3: for every parameter and buffer entry `(k, s)` of the source module,
a successful `clone()` produced a same-named tensor in the clone whose storage
`d` is the one `reset()` freshly allocated (not the source's storage — no
reference swap, `d ≠ s`), holding a copy of the source data at the moment of
cloning; and overwriting the clone's storage afterwards does not change the
source's data (storage independence). -/
theorem claim_C3_data_copy_independent (R : ResetFn) (tag : Nat)
    (ps bs : List (String × Nat)) (cs : List (String × Module)) (σ : Store) (ctr : Nat)
    (c : Module) (hR : FreshReset R)
    (hlow : ∀ s ∈ Module.sids (.mk tag ps bs cs), s < ctr)
    (hpnd : (keysOf ps).Nodup) (hbnd : (keysOf bs).Nodup)
    (hok : (clone R (.mk tag ps bs cs) σ ctr).res = .ok c) :
    (∀ k s, (k, s) ∈ ps →
      ∃ d, dictFind c.parameters_ k = some d ∧ d ≠ s
        ∧ readStore (clone R (.mk tag ps bs cs) σ ctr).store d = readStore σ s
        ∧ ∀ v, readStore (writeStore (clone R (.mk tag ps bs cs) σ ctr).store d v) s
            = readStore σ s)
    ∧ (∀ k s, (k, s) ∈ bs →
      ∃ d, dictFind c.buffers_ k = some d ∧ d ≠ s
        ∧ readStore (clone R (.mk tag ps bs cs) σ ctr).store d = readStore σ s
        ∧ ∀ v, readStore (writeStore (clone R (.mk tag ps bs cs) σ ctr).store d v) s
            = readStore σ s) := by
  obtain ⟨σ1, tr1, σ2, tr2, heq1, heq2, cs', hresC, hceq, hstore, hctrout⟩ :=
    clone_ok_inv hok
  obtain ⟨hctrR, hbndR, hndR⟩ := hR tag ctr
  obtain ⟨hvalsP, hvalsB, hdisjPB⟩ := List.nodup_append.mp hndR
  have hframe := clone_frame hR (.mk tag ps bs cs) σ ctr
  have hcf := cloneChildren_frame
    (fun k oc (_ : (k, oc) ∈ cs) σ' ctr' => clone_frame hR oc σ' ctr')
    (R tag ctr).children_ σ2 (R tag ctr).ctr
  have hsubP : ∀ k ∈ keysOf ps, k ∈ keysOf (R tag ctr).parameters_ := by
    apply copyLoop_none_found (σ := σ)
    rw [heq1]
  have hsubB : ∀ k ∈ keysOf bs, k ∈ keysOf (R tag ctr).buffers_ := by
    apply copyLoop_none_found (σ := σ1)
    rw [heq2]
  constructor
  · intro k s hmem
    have hsmem : s ∈ Module.sids (.mk tag ps bs cs) := by
      rw [Module.sids]
      refine List.mem_append_left _ (List.mem_append_left _ ?_)
      simp only [valsOf, List.mem_map]
      exact ⟨(k, s), hmem, rfl⟩
    have hs_lt : s < ctr := hlow s hsmem
    have hdisjSrc : ∀ s' ∈ valsOf ps, s' ∉ valsOf (R tag ctr).parameters_ := by
      intro s' hs' hcontra
      have hlt : s' < ctr := by
        apply hlow
        rw [Module.sids]
        exact List.mem_append_left _ (List.mem_append_left _ hs')
      have : ctr ≤ s' := (hbndR s' (List.mem_append_left _ hcontra)).1
      omega
    obtain ⟨d, hd, hread1⟩ := copyLoop_data Event.copyParam
      (R tag ctr).parameters_ ps σ hsubP hpnd hvalsP hdisjSrc hmem
    rw [heq1] at hread1
    have hdmem : d ∈ routSids (R tag ctr) :=
      List.mem_append_left _ (valsOf_mem_of_dictFind hd)
    have hd_ge : ctr ≤ d := (hbndR d hdmem).1
    have hd_lt : d < (R tag ctr).ctr := (hbndR d hdmem).2
    have hread2 : readStore σ2 d = readStore σ1 d := by
      have := copyLoop_frame_vals Event.copyBuffer (R tag ctr).buffers_ bs σ1 d
        (fun hc => hdisjPB (valsOf_mem_of_dictFind hd) hc)
      rw [heq2] at this
      exact this
    have hread3 :
        readStore (cloneChildren R cs (R tag ctr).children_ σ2 (R tag ctr).ctr).store d
          = readStore σ2 d := hcf.2 d hd_lt
    have hfinal : readStore (clone R (.mk tag ps bs cs) σ ctr).store d = readStore σ s := by
      rw [hstore, hread3, hread2, hread1]
    refine ⟨d, ?_, by omega, hfinal, ?_⟩
    · rw [hceq]
      exact hd
    · intro v
      rw [readStore_writeStore_ne _ _ (by omega : d ≠ s)]
      exact hframe.2 s hs_lt
  · intro k s hmem
    have hsmem : s ∈ Module.sids (.mk tag ps bs cs) := by
      rw [Module.sids]
      refine List.mem_append_left _ (List.mem_append_right _ ?_)
      simp only [valsOf, List.mem_map]
      exact ⟨(k, s), hmem, rfl⟩
    have hs_lt : s < ctr := hlow s hsmem
    have hdisjSrc : ∀ s' ∈ valsOf bs, s' ∉ valsOf (R tag ctr).buffers_ := by
      intro s' hs' hcontra
      have hlt : s' < ctr := by
        apply hlow
        rw [Module.sids]
        exact List.mem_append_left _ (List.mem_append_right _ hs')
      have : ctr ≤ s' := (hbndR s' (List.mem_append_right _ hcontra)).1
      omega
    obtain ⟨d, hd, hread1⟩ := copyLoop_data Event.copyBuffer
      (R tag ctr).buffers_ bs σ1 hsubB hbnd hvalsB hdisjSrc hmem
    rw [heq2] at hread1
    have hread0 : readStore σ1 s = readStore σ s := by
      have hprot : ∀ k' d', k' ∈ keysOf ps →
          dictFind (R tag ctr).parameters_ k' = some d' → d' ≠ s := by
        intro k' d' _ hd' he
        have : ctr ≤ d' :=
          (hbndR d' (List.mem_append_left _ (valsOf_mem_of_dictFind hd'))).1
        omega
      have := copyLoop_frame Event.copyParam (R tag ctr).parameters_ ps σ s hprot
      rw [heq1] at this
      exact this
    have hdmem : d ∈ routSids (R tag ctr) :=
      List.mem_append_right _ (valsOf_mem_of_dictFind hd)
    have hd_ge : ctr ≤ d := (hbndR d hdmem).1
    have hd_lt : d < (R tag ctr).ctr := (hbndR d hdmem).2
    have hread3 :
        readStore (cloneChildren R cs (R tag ctr).children_ σ2 (R tag ctr).ctr).store d
          = readStore σ2 d := hcf.2 d hd_lt
    have hfinal : readStore (clone R (.mk tag ps bs cs) σ ctr).store d = readStore σ s := by
      rw [hstore, hread3, hread1, hread0]
    refine ⟨d, ?_, by omega, hfinal, ?_⟩
    · rw [hceq]
      exact hd
    · intro v
      rw [readStore_writeStore_ne _ _ (by omega : d ≠ s)]
      exact hframe.2 s hs_lt

/-- C3 witness: cloning the parameter/buffer fixture with a correct fresh
reset copies `[42]` and `[7]` into fresh storages and leaves the source
storages independent. -/
theorem claim_C3_witness :
    ∃ d, dictFind (Module.mk 0 [("w", 2)] [("b", 3)] []).parameters_ "w" = some d
      ∧ d ≠ 0
      ∧ readStore (clone resetWB (.mk 0 [("w", 0)] [("b", 1)] []) initialStore 2).store d
          = readStore initialStore 0
      ∧ ∀ v, readStore
          (writeStore (clone resetWB (.mk 0 [("w", 0)] [("b", 1)] []) initialStore 2).store
            d v) 0 = readStore initialStore 0 := by
  have hR : FreshReset resetWB := by
    intro tag ctr
    refine ⟨?_, ?_, ?_⟩
    · simp only [resetWB]
      omega
    · intro s hs
      simp only [resetWB, routSids, valsOf] at hs
      simp only [resetWB]
      simp at hs
      rcases hs with h | h <;> omega
    · simp only [resetWB, routSids, valsOf]
      simp
  have hok : (clone resetWB (.mk 0 [("w", 0)] [("b", 1)] []) initialStore 2).res
      = .ok (.mk 0 [("w", 2)] [("b", 3)] []) := by
    simp [clone, resetWB, initialStore, copyLoop, dictFind, readStore, writeStore,
      cloneChildren]
  have h := (claim_C3_data_copy_independent resetWB 0 [("w", 0)] [("b", 1)] []
    initialStore 2 (.mk 0 [("w", 2)] [("b", 3)] []) hR (by decide) (by decide) (by decide)
    hok).1 "w" 0 (by decide)
  exact h

end TorchNN
